import Mathlib

/-!
Verification of the `AIService` content-generation pipeline (fact extraction,
quiz parsing, preference analysis, model lifecycle) against its specification.

The embedding models JavaScript strings as lists of characters, JavaScript
numbers as exact integers or rationals, and the asynchronous service methods as pure functions
from their inputs (including an oracle for the model-completion results) to
their results paired with the list of emitted progress events.  Regex-based
text transformations from the source are translated into explicit character
scanners.  Scanners whose JavaScript originals advance through the input are
given a fuel argument that is always instantiated with more fuel than the
input length, so they compute exactly the source behaviour on every input.
-/

set_option maxRecDepth 8000

namespace AIService

/-- Dropping a whitespace run never lengthens a list (termination helper). -/
theorem dropWhileLenLe {α : Type} (p : α → Bool) : ∀ l : List α, (l.dropWhile p).length ≤ l.length := by
  intro l
  induction l with
  | nil => simp
  | cons c rest ih =>
    simp only [List.dropWhile]
    split
    · exact Nat.le_succ_of_le ih
    · simp

/-- Strings of the source program, modelled as lists of characters. -/
abbrev Str := List Char

/-- Whitespace class used by JS `trim()` and the regex class for whitespace
(ASCII approximation of the Unicode class). -/
def isJsWs (c : Char) : Bool :=
  c = ' ' || c = '\t' || c = '\n' || c = '\r' || c = '\x0b' || c = '\x0c'

/-- JS `String.prototype.trim`. -/
def jsTrim (s : Str) : Str :=
  ((s.dropWhile isJsWs).reverse.dropWhile isJsWs).reverse

/-- JS `String.prototype.trimEnd`. -/
def jsTrimEnd (s : Str) : Str :=
  (s.reverse.dropWhile isJsWs).reverse

/-- JS `String.prototype.toLowerCase` (ASCII approximation). -/
def lowerStr (s : Str) : Str :=
  s.map Char.toLower

/-- JS `str.replace` of every whitespace run by a single space
(the regex replacement used in the fallback sentence splitter).
Fuel-driven scanner; each step consumes at least one character, so fuel
larger than the input length reproduces the replacement exactly. -/
def collapseWsF : Nat → Str → Str
  | 0, s => s
  | _, [] => []
  | fuel + 1, c :: rest =>
    if isJsWs c then ' ' :: collapseWsF fuel (rest.dropWhile isJsWs)
    else c :: collapseWsF fuel rest

/-- JS `str.replace` of every whitespace run by a single space. -/
def collapseWs (s : Str) : Str :=
  collapseWsF (s.length + 1) s

/-- JS `String.prototype.split` on a single separator character. -/
def splitChar (sep : Char) : Str → List Str
  | [] => [[]]
  | c :: rest =>
    if c = sep then [] :: splitChar sep rest
    else
      match splitChar sep rest with
      | [] => [[c]]
      | p :: ps => (c :: p) :: ps

/-- JS `text.replace` of every CRLF pair by a bare LF. -/
def normNewlines : Str → Str
  | [] => []
  | '\r' :: '\n' :: rest => '\n' :: normNewlines rest
  | c :: rest => c :: normNewlines rest

/-- A `Fact` record as produced by the extraction pipeline. -/
structure Fact where
  id : Nat
  content : Str
  topic : Str
  source : Str
  created_at : Str
  deriving DecidableEq

/-- The progress events emitted by the pipeline (the variants relevant to
the extraction path; the quiz/storage variants are never emitted by the
functions modelled here). -/
inductive AIProgressEvent where
  | modelDownload (progress : Rat)
  | parseStart (topic : Str) (totalChunks : Nat)
  | parseChunkStart (topic : Str) (chunkIndex totalChunks : Nat)
  | parseChunkComplete (topic : Str) (chunkIndex totalChunks factsGenerated : Nat)
  | parseComplete (topic : Str) (totalChunks factsGenerated : Nat)
  | parseError (topic : Str) (message : Str)
  deriving DecidableEq

/-- Sentence delimiter class of the fallback splitter regex. -/
def isDelim (c : Char) : Bool :=
  c = '.' || c = '!' || c = '?'

/-- The global regex match of one-or-more non-delimiters followed by an
optional delimiter: the list of sentence fragments of a line, with the
delimiter retained.  Fuel-driven scanner; fuel larger than the input length
reproduces the regex behaviour exactly. -/
def fragmentsF : Nat → Str → List Str
  | 0, _ => []
  | _, [] => []
  | fuel + 1, c :: rest =>
    if isDelim c then fragmentsF fuel rest
    else
      let run := (c :: rest).takeWhile (fun x => !(isDelim x))
      match (c :: rest).dropWhile (fun x => !(isDelim x)) with
      | [] => [run]
      | d :: rest2 => (run ++ [d]) :: fragmentsF fuel rest2

/-- Sentence fragments of a line (`line.match` with the sentence regex). -/
def fragments (line : Str) : List Str :=
  fragmentsF (line.length + 1) line

/-- Strip one leading `*` or `-` bullet and the whitespace after it
(the fallback path's bullet regex, anchored, non-global). -/
def stripBulletStar (s : Str) : Str :=
  match s with
  | [] => []
  | c :: rest => if c = '*' || c = '-' then rest.dropWhile isJsWs else s

/-- Cleaning applied to each matched fragment in the fallback splitter:
strip a bullet, collapse whitespace, trim. -/
def cleanFragment (f : Str) : Str :=
  jsTrim (collapseWs (stripBulletStar f))

/-- The sentences contributed by one (already trimmed, non-empty) line:
the cleaned non-empty fragments, or the whitespace-collapsed line itself
when the sentence regex does not match. -/
def lineSentences (line : Str) : List Str :=
  match fragments line with
  | [] => [collapseWs line]
  | f :: fs =>
    (f :: fs).filterMap (fun frag =>
      let c := cleanFragment frag
      if c.length = 0 then none else some c)

/-- The full candidate-sentence list built by `fallbackParseTextToFacts`
before deduplication: normalize newlines, split into lines, trim each line,
skip empty lines, split the rest into sentences. -/
def sentencesOfText (text : Str) : List Str :=
  ((splitChar '\n' (normNewlines text)).map (fun rawLine =>
    let line := jsTrim rawLine
    if line.length = 0 then [] else lineSentences line)).flatten

/-- Fact construction used by both extraction paths (`id` 0, source tag
`"default"`, caller-supplied timestamp). -/
def mkFact (content topic ts : Str) : Fact :=
  ⟨0, content, topic, "default".data, ts⟩

/-- The deduplicating accumulation loop of `fallbackParseTextToFacts`:
trim each sentence, skip empties, skip case-insensitive duplicates,
truncate to 200 characters (trimming the end after truncation), and stop
once 120 facts have been collected. -/
def factLoop (topic ts : Str) : List Str → List Str → List Fact → List Fact
  | [], _, facts => facts
  | s :: rest, seen, facts =>
    let trimmed := jsTrim s
    if trimmed.length = 0 then factLoop topic ts rest seen facts
    else
      let normalized := lowerStr trimmed
      if normalized ∈ seen then factLoop topic ts rest seen facts
      else
        let bounded := if 200 < trimmed.length then jsTrimEnd (trimmed.take 200) else trimmed
        if bounded.length = 0 then factLoop topic ts rest (normalized :: seen) facts
        else
          let facts2 := facts ++ [mkFact bounded topic ts]
          if 120 ≤ facts2.length then facts2
          else factLoop topic ts rest (normalized :: seen) facts2

/-- `fallbackParseTextToFacts(text, topic)`: the deterministic heuristic
extraction path, returning the facts and the emitted progress events
(always the four-event single-chunk sequence, emitted after the facts are
computed). -/
def fallbackParseTextToFacts (text topic ts : Str) : List Fact × List AIProgressEvent :=
  let facts := factLoop topic ts (sentencesOfText text) [] []
  (facts,
    [AIProgressEvent.parseStart topic 1,
     AIProgressEvent.parseChunkStart topic 1 1,
     AIProgressEvent.parseChunkComplete topic 1 1 facts.length,
     AIProgressEvent.parseComplete topic 1 facts.length])

/-! ### The model extraction path -/

/-- Case-insensitive literal prefix match: returns the rest of the input
after the pattern when the input starts with it. -/
def matchCI : Str → Str → Option Str
  | [], s => some s
  | _ :: _, [] => none
  | p :: ps, c :: cs => if p.toLower = c.toLower then matchCI ps cs else none

/-- Drop the input through the first case-insensitive occurrence of the
pattern, returning the suffix after it (none when the pattern does not
occur). -/
def dropThroughCIF : Nat → Str → Str → Option Str
  | 0, _, _ => none
  | fuel + 1, pat, s =>
    match matchCI pat s with
    | some r => some r
    | none =>
      match s with
      | [] => none
      | _ :: t => dropThroughCIF fuel pat t

/-- The lowercase open tag of a thinking block. -/
def openThink : Str := "<think>".data

/-- The lowercase close tag of a thinking block. -/
def closeThink : Str := "</think>".data

/-- First replacement of `stripThinkingBlocks`: remove every
non-greedy case-insensitive open-tag..close-tag block. -/
def stripPairsF : Nat → Str → Str
  | 0, s => s
  | _, [] => []
  | fuel + 1, c :: rest =>
    match matchCI openThink (c :: rest) with
    | some afterOpen =>
      match dropThroughCIF (afterOpen.length + 1) closeThink afterOpen with
      | some after => stripPairsF fuel after
      | none => c :: stripPairsF fuel rest
    | none => c :: stripPairsF fuel rest

/-- Second replacement of `stripThinkingBlocks`: remove every remaining
case-insensitive occurrence of either tag. -/
def stripTagsF : Nat → Str → Str
  | 0, s => s
  | _, [] => []
  | fuel + 1, c :: rest =>
    match matchCI openThink (c :: rest) with
    | some r => stripTagsF fuel r
    | none =>
      match matchCI closeThink (c :: rest) with
      | some r => stripTagsF fuel r
      | none => c :: stripTagsF fuel rest

/-- `stripThinkingBlocks(raw)`: drop paired thinking blocks, then stray
tags, then trim; an empty input is returned unchanged. -/
def stripThinkingBlocks (raw : Str) : Str :=
  if raw.isEmpty then raw
  else jsTrim (stripTagsF (raw.length + 1) (stripPairsF (raw.length + 1) raw))

/-- The chunking loop of `parseTextToFacts`: slices of 6000 characters
(one slice holding the entire text when it fits).  Fuel-driven; the
wrapper supplies more fuel than the text length, and the loop is only
reached on non-empty text. -/
def chunksOfF : Nat → Str → List Str
  | 0, _ => []
  | fuel + 1, s =>
    if s.length ≤ 6000 then [s]
    else s.take 6000 :: chunksOfF fuel (s.drop 6000)

/-- The chunk list of a (non-empty, trimmed) text. -/
def chunksOf (s : Str) : List Str :=
  chunksOfF (s.length + 1) s

/-- The anchored numbering regex of the model path: strip leading digits,
whitespace, one of `.` `)` `-` `:`, and trailing whitespace — only when the
whole pattern is present. -/
def stripNumbering (l : Str) : Str :=
  match l.takeWhile Char.isDigit with
  | [] => l
  | _ :: _ =>
    match (l.dropWhile Char.isDigit).dropWhile isJsWs with
    | c :: r2 =>
      if c = '.' || c = ')' || c = '-' || c = ':' then r2.dropWhile isJsWs else l
    | [] => l

/-- The anchored bullet regex of the model path: strip one leading `-` or
`•` and the whitespace after it. -/
def stripBulletDash (s : Str) : Str :=
  match s with
  | [] => []
  | c :: rest => if c = '-' || c = '•' then rest.dropWhile isJsWs else s

/-- Post-processing of one chunk's completion response: strip thinking
blocks, split on newlines, trim, strip numbering and bullets, keep the
non-empty lines of at most 200 characters. -/
def perChunkFacts (response : Str) : List Str :=
  let cleaned := stripThinkingBlocks response
  (((splitChar '\n' cleaned).map jsTrim).map
      (fun l => jsTrim (stripBulletDash (stripNumbering l)))).filter
    (fun l => decide (0 < l.length) && decide (l.length ≤ 200))

/-- The per-chunk loop of the model path.  The completion oracle gives,
for each zero-based chunk index, either the response returned by
`runCompletion` (which already strips thinking blocks once; the loop
strips again) or a completion failure.  A failed chunk is skipped with
only its chunk-start event; a successful chunk contributes its facts and
a chunk-complete event carrying the number of parsed fact lines. -/
def processChunks (topic ts : Str) (oracle : Nat → Except Unit Str) (total : Nat) :
    List Str → Nat → List Fact × List AIProgressEvent
  | [], _ => ([], [])
  | _chunk :: rest, idx =>
    let tail := processChunks topic ts oracle total rest (idx + 1)
    match oracle idx with
    | .error _ =>
      (tail.1, AIProgressEvent.parseChunkStart topic (idx + 1) total :: tail.2)
    | .ok r =>
      let lines := perChunkFacts r
      let facts := lines.map (fun content => mkFact (content.take 200) topic ts)
      (facts ++ tail.1,
        AIProgressEvent.parseChunkStart topic (idx + 1) total ::
          AIProgressEvent.parseChunkComplete topic (idx + 1) total lines.length :: tail.2)

/-- The model path of `parseTextToFacts(text, topic)`: trim, reject empty
input with no events, chunk, process each chunk in order, and wrap the
whole run in parse-start/parse-complete events. -/
def parseTextToFactsModel (text topic ts : Str) (oracle : Nat → Except Unit Str) :
    List Fact × List AIProgressEvent :=
  let t := jsTrim text
  if t.length = 0 then ([], [])
  else
    let cs := chunksOf t
    let res := processChunks topic ts oracle cs.length cs 0
    (res.1,
      AIProgressEvent.parseStart topic cs.length ::
        res.2 ++ [AIProgressEvent.parseComplete topic cs.length res.1.length])

/-- `parseTextToFacts` dispatch: the fallback path when fallback mode is
enabled or no model handle is held, the model path otherwise. -/
def parseTextToFacts (fallbackMode : Bool) (text topic ts : Str)
    (oracle : Nat → Except Unit Str) : List Fact × List AIProgressEvent :=
  if fallbackMode then fallbackParseTextToFacts text topic ts
  else parseTextToFactsModel text topic ts oracle

/-! ### JSON values and strict parsing (the model of `JSON.parse`) -/

/-- Parsed JSON values; a number is modelled exactly as a decimal
mantissa/exponent pair with value `mant * 10 ^ exp10` (the source receives
an IEEE double; every number appearing in the quiz path is floored and
clamped to a tiny integer range, where the exact model and the double
agree). -/
inductive JVal where
  | null
  | bool (b : Bool)
  | num (mant : Int) (exp10 : Int)
  | str (s : Str)
  | arr (elems : List JVal)
  | obj (members : List (Str × JVal))

/-- The whitespace accepted by `JSON.parse` between tokens. -/
def jsonWsChar (c : Char) : Bool :=
  c = ' ' || c = '\t' || c = '\n' || c = '\r'

/-- Hex digit value for unicode escapes. -/
def hexVal (c : Char) : Option Nat :=
  if c.isDigit then some (c.toNat - 48)
  else if 'a' ≤ c && c ≤ 'f' then some (c.toNat - 87)
  else if 'A' ≤ c && c ≤ 'F' then some (c.toNat - 55)
  else none

/-- JSON string body parser, after the opening quote: the decoded content
and the rest after the closing quote.  Unescaped control characters are
rejected, escapes are decoded. -/
def pStringF : Nat → Str → Option (Str × Str)
  | 0, _ => none
  | _, [] => none
  | fuel + 1, c :: rest =>
    if c = '"' then some ([], rest)
    else if c = '\\' then
      match rest with
      | [] => none
      | e :: rest2 =>
        if e = '"' then (pStringF fuel rest2).map (fun p => ('"' :: p.1, p.2))
        else if e = '\\' then (pStringF fuel rest2).map (fun p => ('\\' :: p.1, p.2))
        else if e = '/' then (pStringF fuel rest2).map (fun p => ('/' :: p.1, p.2))
        else if e = 'b' then (pStringF fuel rest2).map (fun p => ('\x08' :: p.1, p.2))
        else if e = 'f' then (pStringF fuel rest2).map (fun p => ('\x0c' :: p.1, p.2))
        else if e = 'n' then (pStringF fuel rest2).map (fun p => ('\n' :: p.1, p.2))
        else if e = 'r' then (pStringF fuel rest2).map (fun p => ('\r' :: p.1, p.2))
        else if e = 't' then (pStringF fuel rest2).map (fun p => ('\t' :: p.1, p.2))
        else if e = 'u' then
          match rest2 with
          | h1 :: h2 :: h3 :: h4 :: rest3 =>
            match hexVal h1, hexVal h2, hexVal h3, hexVal h4 with
            | some a, some b, some c2, some d =>
              (pStringF fuel rest3).map
                (fun p => (Char.ofNat (((a * 16 + b) * 16 + c2) * 16 + d) :: p.1, p.2))
            | _, _, _, _ => none
          | _ => none
        else none
    else if c.toNat < 32 then none
    else (pStringF fuel rest).map (fun p => (c :: p.1, p.2))

/-- Numeric value of a digit run. -/
def digitsVal (ds : Str) : Nat :=
  ds.foldl (fun a c => a * 10 + (c.toNat - 48)) 0

/-- Optional fraction part of a JSON number. -/
def pFrac (s : Str) : Option (Str × Str) :=
  match s with
  | '.' :: r =>
    match r.takeWhile Char.isDigit with
    | [] => none
    | ds => some (ds, r.dropWhile Char.isDigit)
  | _ => some ([], s)

/-- Optional exponent part of a JSON number. -/
def pExp (s : Str) : Option (Int × Str) :=
  match s with
  | c :: r =>
    if c = 'e' || c = 'E' then
      match r with
      | '+' :: rr =>
        match rr.takeWhile Char.isDigit with
        | [] => none
        | ds => some ((digitsVal ds : Int), rr.dropWhile Char.isDigit)
      | '-' :: rr =>
        match rr.takeWhile Char.isDigit with
        | [] => none
        | ds => some (-(digitsVal ds : Int), rr.dropWhile Char.isDigit)
      | _ =>
        match r.takeWhile Char.isDigit with
        | [] => none
        | ds => some ((digitsVal ds : Int), r.dropWhile Char.isDigit)
    else some (0, s)
  | [] => some (0, [])

/-- JSON number parser (strict grammar: optional sign, no leading zeros,
optional fraction and exponent); the value is the signed digit string as
mantissa together with the exponent shifted by the fraction length. -/
def pNumber (s : Str) : Option ((Int × Int) × Str) :=
  let signed := match s with | '-' :: r => (true, r) | _ => (false, s)
  match signed.2.takeWhile Char.isDigit with
  | [] => none
  | d0 :: drest =>
    if d0 = '0' && !drest.isEmpty then none
    else
      let s2 := signed.2.dropWhile Char.isDigit
      match pFrac s2 with
      | none => none
      | some (fds, s3) =>
        match pExp s3 with
        | none => none
        | some (e, s4) =>
          let mantNat : Nat := digitsVal (d0 :: drest) * 10 ^ fds.length + digitsVal fds
          let mant : Int := if signed.1 then -(mantNat : Int) else (mantNat : Int)
          some ((mant, e - (fds.length : Int)), s4)

mutual

/-- JSON value parser (fuel-driven recursive descent). -/
def pValF : Nat → Str → Option (JVal × Str)
  | 0, _ => none
  | fuel + 1, s =>
    match s.dropWhile jsonWsChar with
    | [] => none
    | c :: rest =>
      if c = '{' then
        match rest.dropWhile jsonWsChar with
        | '}' :: r => some (JVal.obj [], r)
        | r2 => (pMembersF fuel r2).map (fun p => (JVal.obj p.1, p.2))
      else if c = '[' then
        match rest.dropWhile jsonWsChar with
        | ']' :: r => some (JVal.arr [], r)
        | r2 => (pElemsF fuel r2).map (fun p => (JVal.arr p.1, p.2))
      else if c = '"' then
        (pStringF (rest.length + 1) rest).map (fun p => (JVal.str p.1, p.2))
      else if c = 'n' then
        match rest with
        | 'u' :: 'l' :: 'l' :: r => some (JVal.null, r)
        | _ => none
      else if c = 't' then
        match rest with
        | 'r' :: 'u' :: 'e' :: r => some (JVal.bool true, r)
        | _ => none
      else if c = 'f' then
        match rest with
        | 'a' :: 'l' :: 's' :: 'e' :: r => some (JVal.bool false, r)
        | _ => none
      else (pNumber (c :: rest)).map (fun p => (JVal.num p.1.1 p.1.2, p.2))

/-- Array element list parser, positioned at a first element. -/
def pElemsF : Nat → Str → Option (List JVal × Str)
  | 0, _ => none
  | fuel + 1, s =>
    match pValF fuel s with
    | none => none
    | some (v, r) =>
      match r.dropWhile jsonWsChar with
      | ',' :: r2 => (pElemsF fuel r2).map (fun p => (v :: p.1, p.2))
      | ']' :: r2 => some ([v], r2)
      | _ => none

/-- Object member list parser, positioned at a first member. -/
def pMembersF : Nat → Str → Option (List (Str × JVal) × Str)
  | 0, _ => none
  | fuel + 1, s =>
    match s.dropWhile jsonWsChar with
    | '"' :: r =>
      match pStringF (r.length + 1) r with
      | none => none
      | some (key, r2) =>
        match r2.dropWhile jsonWsChar with
        | ':' :: r3 =>
          match pValF fuel r3 with
          | none => none
          | some (v, r4) =>
            match r4.dropWhile jsonWsChar with
            | ',' :: r5 => (pMembersF fuel r5).map (fun p => ((key, v) :: p.1, p.2))
            | '}' :: r5 => some ([(key, v)], r5)
            | _ => none
        | _ => none
    | _ => none

end

/-- `JSON.parse`: parse a complete value with only whitespace around it;
`none` models a thrown `SyntaxError`. -/
def jsonParse (s : Str) : Option JVal :=
  match pValF (2 * s.length + 8) s with
  | some (v, r) => if (r.dropWhile jsonWsChar).isEmpty then some v else none
  | none => none

/-! ### The tolerant quiz-batch parser (`parseQuizBatch`) -/

/-- A quiz question record; the answer index is a JS number that is an
integer after flooring and clamping. -/
structure QuizQuestion where
  question : Str
  options : List Str
  correct_answer : Int
  deriving DecidableEq

/-- Index of the first occurrence of a character. -/
def firstIdx (s : Str) (c : Char) : Option Nat :=
  s.findIdx? (fun x => x = c)

/-- Index of the last occurrence of a character. -/
def lastIdx (s : Str) (c : Char) : Option Nat :=
  match s.reverse.findIdx? (fun x => x = c) with
  | none => none
  | some k => some (s.length - 1 - k)

/-- The greedy bracket regex: the span from the first opening bracket to
the last closing bracket, when the latter comes after the former. -/
def greedySpan (openC closeC : Char) (s : Str) : Option Str :=
  match firstIdx s openC, lastIdx s closeC with
  | some i, some j => if i < j then some ((s.drop i).take (j - i + 1)) else none
  | _, _ => none

/-- Identifier characters of the bare-key repair regex. -/
def isIdentChar (c : Char) : Bool :=
  c.isAlphanum || c = '_'

/-- First repair: quote bare object keys (a `{` or `,`, whitespace, an
identifier run, whitespace, then `:` becomes the same with the identifier
double-quoted; the whitespace before the colon is dropped by the
replacement). -/
def sanitizeKeysF : Nat → Str → Str
  | 0, s => s
  | _, [] => []
  | fuel + 1, c :: rest =>
    if c = '{' || c = ',' then
      let ws1 := rest.takeWhile isJsWs
      let r1 := rest.dropWhile isJsWs
      let ident := r1.takeWhile isIdentChar
      let r3 := (r1.dropWhile isIdentChar).dropWhile isJsWs
      match ident, r3 with
      | _ :: _, ':' :: r4 =>
        (c :: ws1) ++ ('"' :: ident) ++ ('"' :: ':' :: sanitizeKeysF fuel r4)
      | _, _ => c :: sanitizeKeysF fuel rest
    else c :: sanitizeKeysF fuel rest

/-- The escaping applied to a single-quoted literal's content when it is
re-quoted: double each backslash, escape each double quote. -/
def escapeJsonStr (content : Str) : Str :=
  (content.map (fun c =>
    if c = '\\' then ['\\', '\\']
    else if c = '"' then ['\\', '"']
    else [c])).flatten

/-- Second repair: convert each single-quoted literal (no embedded single
quote) into a double-quoted one with escaping. -/
def sanitizeQuotesF : Nat → Str → Str
  | 0, s => s
  | _, [] => []
  | fuel + 1, c :: rest =>
    if c = '\'' then
      match rest.dropWhile (fun x => x != '\'') with
      | _ :: r2 =>
        '"' :: (escapeJsonStr (rest.takeWhile (fun x => x != '\'')) ++
          ('"' :: sanitizeQuotesF fuel r2))
      | [] => c :: rest
    else c :: sanitizeQuotesF fuel rest

/-- Third repair: drop a comma standing (up to whitespace) before a
closing brace or bracket. -/
def sanitizeCommasF : Nat → Str → Str
  | 0, s => s
  | _, [] => []
  | fuel + 1, c :: rest =>
    if c = ',' then
      match rest.dropWhile isJsWs with
      | b :: r2 =>
        if b = '}' || b = ']' then b :: sanitizeCommasF fuel r2
        else c :: sanitizeCommasF fuel rest
      | [] => c :: sanitizeCommasF fuel rest
    else c :: sanitizeCommasF fuel rest

/-- JS object property lookup on a parsed JSON object (duplicate keys:
the last occurrence wins, as in `JSON.parse`). -/
def jLookup (kvs : List (Str × JVal)) (k : Str) : Option JVal :=
  match kvs.reverse.find? (fun p => decide (p.1 = k)) with
  | some p => some p.2
  | none => none

/-- Property access `item.k` for a parsed JSON value (undefined — `none` —
on arrays and primitives, whose relevant properties do not exist). -/
def getField (v : JVal) (k : Str) : Option JVal :=
  match v with
  | .obj kvs => jLookup kvs k
  | _ => none

/-- `item.question` normalisation: a trimmed string, or empty when the
property is not a string. -/
def itemQuestion (v : JVal) : Str :=
  match getField v "question".data with
  | some (.str s) => jsTrim s
  | _ => []

/-- `item.options` normalisation: the trimmed non-empty string elements,
or empty when the property is not an array. -/
def itemOptions (v : JVal) : List Str :=
  match getField v "options".data with
  | some (.arr xs) =>
    xs.filterMap (fun o =>
      match o with
      | .str s => if 0 < (jsTrim s).length then some (jsTrim s) else none
      | _ => none)
  | _ => []

/-- `item.correct_answer` as a mantissa/exponent number, defaulting to 0
when the property is not a number.  (In this exact model every parsed
number is finite, so the source's finiteness guard is always satisfied; an
infinite parse result would also be clamped to 0 by the source.) -/
def itemAnswerNum (v : JVal) : Int × Int :=
  match getField v "correct_answer".data with
  | some (.num m e) => (m, e)
  | _ => (0, 0)

/-- `Math.floor (m * 10 ^ e)`, exactly (floor division toward negative
infinity for negative exponents). -/
def floorPow10 (m e : Int) : Int :=
  match e with
  | Int.ofNat k => m * (10 : Int) ^ k
  | Int.negSucc k => Int.fdiv m ((10 : Int) ^ (k + 1))

/-- The clamped zero-based answer index: floor, then clamp into
`[0, options.length - 1]`. -/
def itemAnswer (v : JVal) : Int :=
  max 0 (min ((itemOptions v).length - 1 : Int)
    (floorPow10 (itemAnswerNum v).1 (itemAnswerNum v).2))

/-- The mapping of one parsed array item to a `QuizQuestion`. -/
def itemToQuestion (v : JVal) : QuizQuestion :=
  ⟨itemQuestion v, itemOptions v, itemAnswer v⟩

/-- JS `typeof item === 'object' && item !== null` on a parsed JSON value
(arrays are objects in JS). -/
def isObjLike (v : JVal) : Bool :=
  match v with
  | .obj _ => true
  | .arr _ => true
  | _ => false

/-- The questions one repair candidate yields: parse it, require an
array, map the object-like items, keep those with a non-empty question
and exactly 4 options.  Empty on any parse failure. -/
def candidateQuestions (c : Str) : List QuizQuestion :=
  match jsonParse c with
  | some (.arr items) =>
    ((items.filter isObjLike).map itemToQuestion).filter
      (fun q => decide (0 < q.question.length) && decide (q.options.length = 4))
  | _ => []

/-- The candidate set of `parseQuizBatch`: the trimmed greedy `[..]` span
and its repaired variant, deduplicated preserving insertion order (a JS
`Set`); empty when no bracketed span exists. -/
def quizCandidates (raw : Str) : List Str :=
  match greedySpan '[' ']' raw with
  | none => []
  | some sp =>
    let base := jsTrim sp
    let sk := sanitizeKeysF (base.length + 1) base
    let sq := sanitizeQuotesF (sk.length + 1) sk
    let san := sanitizeCommasF (sq.length + 1) sq
    if san = base then [base] else [base, san]

/-- The candidate loop of `parseQuizBatch`: first candidate yielding any
valid item wins, capped at the expected count when it is positive. -/
def parseQuizBatchGo (expected : Nat) : List Str → List QuizQuestion
  | [] => []
  | c :: cs =>
    let qs := candidateQuestions c
    if qs.isEmpty then parseQuizBatchGo expected cs
    else qs.take (if 0 < expected then expected else qs.length)

/-- `parseQuizBatch(raw, expected)`.  Total: a parse failure of every
candidate is the empty list, never an exception. -/
def parseQuizBatch (raw : Str) (expected : Nat) : List QuizQuestion :=
  parseQuizBatchGo expected (quizCandidates raw)

/-! ### The preference analyzer (`analyzeUserPreference`) -/

/-- An interaction record; only the direction tag is consumed. -/
structure Interaction where
  direction : Str
  deriving DecidableEq

/-- A preference analysis record; scores are rationals (the idealisation
of JS doubles). -/
structure PreferenceAnalysis where
  preferred_topics : List Str
  disliked_topics : List Str
  neutral_topics : List Str
  overall_scores : List (Str × Rat)
  deriving DecidableEq

/-- The all-empty analysis. -/
def emptyAnalysis : PreferenceAnalysis :=
  ⟨[], [], [], []⟩

/-- Decimal rounding of JS `toFixed`: round half away from zero. -/
def roundAwayFromZero (q : Rat) : Int :=
  if 0 ≤ q then ⌊q + 1 / 2⌋ else -⌊-q + 1 / 2⌋

/-- `Number(x.toFixed(2))`: round to two decimal places. -/
def toFixed2 (q : Rat) : Rat :=
  (roundAwayFromZero (q * 100) : Rat) / 100

/-- The number of interactions with a given direction tag. -/
def countDirection (ints : List Interaction) (d : Str) : Nat :=
  (ints.filter (fun i => decide (i.direction = d))).length

/-- `baselineAnalysis()`: the all-empty analysis on no interactions;
otherwise the right-swipe share (with denominator floored at 1) marks the
single generic topic preferred above 0.6, disliked below 0.4, and scores
it with `round((share - 0.5) * 2, 2)`. -/
def baselineAnalysis (ints : List Interaction) : PreferenceAnalysis :=
  if ints.isEmpty then emptyAnalysis
  else
    let rightSwipes := countDirection ints "right".data
    let leftSwipes := countDirection ints "left".data
    let denom : Nat := if rightSwipes + leftSwipes = 0 then 1 else rightSwipes + leftSwipes
    let share : Rat := (rightSwipes : Rat) / (denom : Rat)
    ⟨if 3 / 5 < share then ["general".data] else [],
     if share < 2 / 5 then ["general".data] else [],
     [],
     [("general".data, toFixed2 ((share - 1 / 2) * 2))]⟩

/-- The preference analyzer's result: either a computed analysis record or
the JSON object returned verbatim from the model response (the source
casts the parsed JSON without validating its shape). -/
inductive PrefResult where
  | analysis (p : PreferenceAnalysis)
  | fromJson (v : JVal)

/-- The JSON object recovered from a model response in the preference
path: the greedy brace span, strictly parsed; `none` models both a
missing span and a parse failure. -/
def prefJson (resp : Str) : Option JVal :=
  match greedySpan '{' '}' resp with
  | none => none
  | some sp => jsonParse sp

/-- `analyzeUserPreference(interactions)`: the baseline in fallback mode
or on no interactions; otherwise a completion failure yields the all-empty
analysis, a response without parseable JSON yields the baseline, and a
parsed JSON object is returned verbatim.  The completion oracle carries
the `runCompletion` result.  Total: no failure propagates. -/
def analyzeUserPreference (fallbackMode : Bool) (ints : List Interaction)
    (completion : Except Unit Str) : PrefResult :=
  if fallbackMode then .analysis (baselineAnalysis ints)
  else if ints.isEmpty then .analysis (baselineAnalysis ints)
  else
    match completion with
    | .error _ => .analysis emptyAnalysis
    | .ok resp =>
      match prefJson resp with
      | some v => .fromJson v
      | none => .analysis (baselineAnalysis ints)

/-! ### The model lifecycle (`initialize` / `destroy`) -/

/-- The environment of one initialization attempt: backend availability,
the optional capabilities of its handle, the preload configuration flag,
and the outcomes of the download and backend-init steps. -/
structure ModelEnv where
  backend : Bool
  hasDownload : Bool
  hasInit : Bool
  preload : Bool
  downloadOk : Bool
  initOk : Bool
  deriving DecidableEq

/-- The lifecycle fields of the service. -/
structure AIState where
  lm : Bool
  initialized : Bool
  initializing : Bool
  fallbackEnabled : Bool
  deriving DecidableEq

/-- One completed `initialize()` call: returns the resulting state and
whether an underlying backend initialization attempt was performed.
An already-initialized service returns immediately; a call overlapping an
in-flight initialization waits for it (modelled separately as `InitStep`)
and performs no attempt of its own.  A missing backend moves straight to
fallback; a failed download or backend init is caught and resolves to
fallback; success holds the handle.  (The configuration supplier is an
external collaborator modelled as total, so the source's outer catch-and-
rethrow branch is unreachable and every call resolves.) -/
def initRun (env : ModelEnv) (s : AIState) : AIState × Bool :=
  if s.initialized then (s, false)
  else if s.initializing then (s, false)
  else if !env.backend then
    ({ s with fallbackEnabled := true, initialized := true, initializing := false }, false)
  else
    let downloadSucceeds := !env.preload || !env.hasDownload || env.downloadOk
    let initSucceeds := !env.hasInit || env.initOk
    if downloadSucceeds && initSucceeds then
      ({ s with lm := true, initialized := true, initializing := false }, true)
    else
      ({ s with lm := false, fallbackEnabled := true, initialized := true,
                initializing := false }, true)

/-- `destroy()`: release the handle when present (destroy failures of the
handle are swallowed), clearing the handle and the initialized flag; do
nothing at all when no handle is held. -/
def destroyRun (s : AIState) : AIState :=
  if s.lm then { s with lm := false, initialized := false } else s

/-! ### Concurrent `initialize()` calls

The source coalesces concurrent calls through the `initializing` flag and
a polling wait.  JavaScript runs each synchronous prefix atomically, so
the check-and-set of the flag is one atomic action; the whole asynchronous
attempt is collapsed into one visible completion step, sound because no
other action writes the lifecycle fields while it is in flight. -/

/-- The program counter of one caller of `initialize()`. -/
inductive CallerPC where
  | start
  | waiting
  | attempting
  | done
  deriving DecidableEq

/-- A system of concurrent callers over the shared lifecycle flags,
instrumented with the count of underlying backend attempts. -/
structure InitSys where
  pcs : List CallerPC
  initialized : Bool
  initializing : Bool
  attempts : Nat
  deriving DecidableEq

/-- The initial system: `n` callers about to call `initialize()` on a
fresh service. -/
def initSys (n : Nat) : InitSys :=
  ⟨List.replicate n CallerPC.start, false, false, 0⟩

/-- Interleaving semantics of concurrent `initialize()` calls. -/
inductive InitStep : InitSys → InitSys → Prop where
  | returnNow (s : InitSys) (i : Nat) (hpc : s.pcs[i]? = some CallerPC.start)
      (hinit : s.initialized = true) :
      InitStep s { s with pcs := s.pcs.set i CallerPC.done }
  | beginWait (s : InitSys) (i : Nat) (hpc : s.pcs[i]? = some CallerPC.start)
      (h1 : s.initialized = false) (h2 : s.initializing = true) :
      InitStep s { s with pcs := s.pcs.set i CallerPC.waiting }
  | beginAttempt (s : InitSys) (i : Nat) (hpc : s.pcs[i]? = some CallerPC.start)
      (h1 : s.initialized = false) (h2 : s.initializing = false) :
      InitStep s { s with pcs := s.pcs.set i CallerPC.attempting, initializing := true,
                          attempts := s.attempts + 1 }
  | observeDone (s : InitSys) (i : Nat) (hpc : s.pcs[i]? = some CallerPC.waiting)
      (hinit : s.initialized = true) :
      InitStep s { s with pcs := s.pcs.set i CallerPC.done }
  | finishAttempt (s : InitSys) (i : Nat) (hpc : s.pcs[i]? = some CallerPC.attempting) :
      InitStep s { s with pcs := s.pcs.set i CallerPC.done, initialized := true,
                          initializing := false }

/-- Reachability of system states from the initial system. -/
def InitReachable (n : Nat) (s : InitSys) : Prop :=
  Relation.ReflTransGen InitStep (initSys n) s

/-! ### Helper lemmas about the fallback extraction loop -/

/-- Trimming the end never lengthens a string. -/
theorem jsTrimEndLen (s : Str) : (jsTrimEnd s).length ≤ s.length := by
  simp only [jsTrimEnd, List.length_reverse]
  simpa using dropWhileLenLe isJsWs s.reverse

/-- The content bound invariant of the fallback accumulation loop: every
fact it ever emits has non-empty content of at most 200 characters. -/
theorem factLoop_bounds (topic ts : Str) :
    ∀ (l seen : List Str) (facts : List Fact),
      (∀ f ∈ facts, 0 < f.content.length ∧ f.content.length ≤ 200) →
      ∀ f ∈ factLoop topic ts l seen facts, 0 < f.content.length ∧ f.content.length ≤ 200 := by
  intro l
  induction l with
  | nil => intro seen facts h f hf; simp only [factLoop] at hf; exact h f hf
  | cons s rest ih =>
    intro seen facts h f hf
    have hlong : ∀ g : Fact, g = mkFact (jsTrimEnd ((jsTrim s).take 200)) topic ts →
        0 < g.content.length → 0 < g.content.length ∧ g.content.length ≤ 200 := by
      rintro g rfl hpos
      refine ⟨hpos, ?_⟩
      simp only [mkFact]
      calc (jsTrimEnd ((jsTrim s).take 200)).length ≤ ((jsTrim s).take 200).length :=
            jsTrimEndLen _
        _ ≤ 200 := by simp [List.length_take]
    simp only [factLoop] at hf
    split_ifs at hf with h1 h2 h3 h4 h5 h6
    · exact ih seen facts h f hf
    · exact ih seen facts h f hf
    · exact ih (lowerStr (jsTrim s) :: seen) facts h f hf
    · rcases List.mem_append.mp hf with hm | hm
      · exact h f hm
      · have hm2 : f = mkFact (jsTrimEnd ((jsTrim s).take 200)) topic ts := by simpa using hm
        exact hlong f hm2 (by rw [hm2]; simpa [mkFact] using Nat.pos_of_ne_zero h4)
    · refine ih (lowerStr (jsTrim s) :: seen) _ ?_ f hf
      intro g hg
      rcases List.mem_append.mp hg with hm | hm
      · exact h g hm
      · have hm2 : g = mkFact (jsTrimEnd ((jsTrim s).take 200)) topic ts := by simpa using hm
        exact hlong g hm2 (by rw [hm2]; simpa [mkFact] using Nat.pos_of_ne_zero h4)
    · rcases List.mem_append.mp hf with hm | hm
      · exact h f hm
      · have hm2 : f = mkFact (jsTrim s) topic ts := by simpa using hm
        subst hm2
        exact ⟨by simpa [mkFact] using Nat.pos_of_ne_zero h1, by simp only [mkFact]; omega⟩
    · refine ih (lowerStr (jsTrim s) :: seen) _ ?_ f hf
      intro g hg
      rcases List.mem_append.mp hg with hm | hm
      · exact h g hm
      · have hm2 : g = mkFact (jsTrim s) topic ts := by simpa using hm
        subst hm2
        exact ⟨by simpa [mkFact] using Nat.pos_of_ne_zero h1, by simp only [mkFact]; omega⟩

/-- The deduplication invariant of the fallback accumulation loop: when no
remaining sentence exceeds 200 characters after trimming (so no fact is
truncated), the loop preserves pairwise-distinct lowercased contents,
tracking the seen-set. -/
theorem factLoop_dedup (topic ts : Str) :
    ∀ (l seen : List Str) (facts : List Fact),
      (∀ s ∈ l, (jsTrim s).length ≤ 200) →
      (∀ f ∈ facts, lowerStr f.content ∈ seen) →
      facts.Pairwise (fun a b => lowerStr a.content ≠ lowerStr b.content) →
      (factLoop topic ts l seen facts).Pairwise
        (fun a b => lowerStr a.content ≠ lowerStr b.content) := by
  intro l
  induction l with
  | nil => intro seen facts _ _ hpw; simpa only [factLoop] using hpw
  | cons s rest ih =>
    intro seen facts hlen hseen hpw
    have hlen_head := hlen s (by simp)
    have hlen_rest : ∀ u ∈ rest, (jsTrim u).length ≤ 200 := fun u hu => hlen u (by simp [hu])
    have hpush : (facts ++ [mkFact (jsTrim s) topic ts]).Pairwise
        (fun a b => lowerStr a.content ≠ lowerStr b.content) →
        True := fun _ => trivial
    simp only [factLoop]
    split_ifs with h1 h2 h3 h4 h5 h6
    · exact ih seen facts hlen_rest hseen hpw
    · exact ih seen facts hlen_rest hseen hpw
    · omega
    · omega
    · omega
    · -- capped: the result is the pushed list itself
      rw [List.pairwise_append]
      refine ⟨hpw, by simp, ?_⟩
      intro a ha b hb
      have hb2 : b = mkFact (jsTrim s) topic ts := by simpa using hb
      subst hb2
      intro heq
      exact h2 (by rw [mkFact] at heq; rw [← heq]; exact hseen a ha)
    · -- pushed, loop continues
      refine ih (lowerStr (jsTrim s) :: seen) _ hlen_rest ?_ ?_
      · intro g hg
        rcases List.mem_append.mp hg with hm | hm
        · exact List.mem_cons_of_mem _ (hseen g hm)
        · have hm2 : g = mkFact (jsTrim s) topic ts := by simpa using hm
          subst hm2
          simp [mkFact]
      · rw [List.pairwise_append]
        refine ⟨hpw, by simp, ?_⟩
        intro a ha b hb
        have hb2 : b = mkFact (jsTrim s) topic ts := by simpa using hb
        subst hb2
        intro heq
        exact h2 (by rw [mkFact] at heq; rw [← heq]; exact hseen a ha)

/-- On a list of already-clean sentences (trimmed, non-empty, within the
200-character bound, fresh for the seen-set, pairwise distinct after
lowercasing) that fits under the 120-fact cap, the fallback loop appends
exactly one fact per sentence, in order. -/
theorem factLoop_clean (topic ts : Str) :
    ∀ (l seen : List Str) (facts : List Fact),
      (∀ s ∈ l, jsTrim s = s ∧ s ≠ [] ∧ s.length ≤ 200) →
      (∀ s ∈ l, lowerStr s ∉ seen) →
      l.Pairwise (fun a b => lowerStr a ≠ lowerStr b) →
      facts.length + l.length < 120 →
      factLoop topic ts l seen facts = facts ++ l.map (fun s => mkFact s topic ts) := by
  intro l
  induction l with
  | nil => intro seen facts _ _ _ _; simp [factLoop]
  | cons s rest ih =>
    intro seen facts hclean hfresh hpw hcap
    simp only [List.length_cons] at hcap
    obtain ⟨hts, hne, hle⟩ := hclean s (by simp)
    rw [List.pairwise_cons] at hpw
    simp only [factLoop, hts]
    rw [if_neg (show ¬ (s : Str).length = 0 by simpa [List.length_eq_zero] using hne),
        if_neg (hfresh s (by simp)),
        if_neg (show ¬ 200 < (s : Str).length by omega),
        if_neg (show ¬ (s : Str).length = 0 by simpa [List.length_eq_zero] using hne),
        if_neg (show ¬ 120 ≤ (facts ++ [mkFact s topic ts]).length by
          simp only [List.length_append, List.length_cons, List.length_nil]
          omega)]
    rw [ih (lowerStr s :: seen) (facts ++ [mkFact s topic ts])
          (fun u hu => hclean u (by simp [hu]))
          ?_ hpw.2 (by simp; omega)]
    · simp
    · intro u hu
      simp only [List.mem_cons]
      push_neg
      exact ⟨fun he => hpw.1 u hu he.symm, hfresh u (by simp [hu])⟩

/-! ### Helper lemmas about the model-path chunk loop -/

/-- Every fact the chunk loop emits has non-empty content of at most 200
characters (the response lines are filtered to that bound and then
defensively truncated). -/
theorem processChunks_bounds (topic ts : Str) (oracle : Nat → Except Unit Str) (total : Nat) :
    ∀ (cs : List Str) (idx : Nat) (f : Fact),
      f ∈ (processChunks topic ts oracle total cs idx).1 →
      0 < f.content.length ∧ f.content.length ≤ 200 := by
  intro cs
  induction cs with
  | nil => intro idx f hf; simp [processChunks] at hf
  | cons c cs' ih =>
    intro idx f hf
    simp only [processChunks] at hf
    split at hf
    · exact ih (idx + 1) f hf
    · rcases List.mem_append.mp hf with hm | hm
      · rcases List.mem_map.mp hm with ⟨content, hcontent, rfl⟩
        rcases List.mem_filter.mp hcontent with ⟨-, hbound⟩
        simp only [Bool.and_eq_true, decide_eq_true_eq] at hbound
        simp only [mkFact, List.length_take]
        omega
      · exact ih (idx + 1) f hm

/-- Every chunk, failed or not, gets its chunk-start event. -/
theorem processChunks_start_mem (topic ts : Str) (oracle : Nat → Except Unit Str) (total : Nat) :
    ∀ (cs : List Str) (idx k : Nat), k < cs.length →
      AIProgressEvent.parseChunkStart topic (idx + k + 1) total ∈
        (processChunks topic ts oracle total cs idx).2 := by
  intro cs
  induction cs with
  | nil => intro idx k hk; simp at hk
  | cons c cs' ih =>
    intro idx k hk
    simp only [processChunks]
    split
    · cases k with
      | zero => exact List.mem_cons_self _ _
      | succ k' =>
        have harith : idx + (k' + 1) + 1 = (idx + 1) + k' + 1 := by omega
        rw [harith]
        exact List.mem_cons_of_mem _ (ih (idx + 1) k' (by simpa using hk))
    · cases k with
      | zero => exact List.mem_cons_self _ _
      | succ k' =>
        have harith : idx + (k' + 1) + 1 = (idx + 1) + k' + 1 := by omega
        rw [harith]
        exact List.mem_cons_of_mem _
          (List.mem_cons_of_mem _ (ih (idx + 1) k' (by simpa using hk)))

/-- A chunk-complete event in the chunk loop's output always belongs to a
chunk whose completion succeeded, and carries that chunk's parsed line
count. -/
theorem processChunks_complete_mem (topic ts : Str) (oracle : Nat → Except Unit Str)
    (total : Nat) :
    ∀ (cs : List Str) (idx : Nat) (t2 : Str) (j tot2 m : Nat),
      AIProgressEvent.parseChunkComplete t2 j tot2 m ∈
          (processChunks topic ts oracle total cs idx).2 →
      ∃ k, k < cs.length ∧ t2 = topic ∧ tot2 = total ∧ j = idx + k + 1 ∧
        ∃ r, oracle (idx + k) = Except.ok r ∧ m = (perChunkFacts r).length := by
  intro cs
  induction cs with
  | nil => intro idx t2 j tot2 m hm; simp [processChunks] at hm
  | cons c cs' ih =>
    intro idx t2 j tot2 m hm
    simp only [processChunks] at hm
    split at hm
    · rename_i herr
      rcases List.mem_cons.mp hm with h | h
      · simp at h
      · rcases ih (idx + 1) t2 j tot2 m h with ⟨k, hk, ht, htot, hj, r, hr, hmm⟩
        exact ⟨k + 1, by simpa using Nat.succ_lt_succ hk, ht, htot, by omega,
          r, by rw [show idx + (k + 1) = (idx + 1) + k by omega]; exact hr, hmm⟩
    · rename_i r0 hok
      rcases List.mem_cons.mp hm with h | h
      · simp at h
      rcases List.mem_cons.mp h with h2 | h2
      · obtain ⟨ht, hj, htot, hmm⟩ : t2 = topic ∧ j = idx + 1 ∧ tot2 = total ∧
            m = (perChunkFacts r0).length := by
          simpa using h2
        exact ⟨0, by simp, ht, htot, by omega, r0, by simpa using hok, hmm⟩
      · rcases ih (idx + 1) t2 j tot2 m h2 with ⟨k, hk, ht, htot, hj, r, hr, hmm⟩
        exact ⟨k + 1, by simpa using Nat.succ_lt_succ hk, ht, htot, by omega,
          r, by rw [show idx + (k + 1) = (idx + 1) + k by omega]; exact hr, hmm⟩

/-- Every fact line parsed from a successful chunk's response yields a
fact in the chunk loop's output. -/
theorem processChunks_ok_facts (topic ts : Str) (oracle : Nat → Except Unit Str) (total : Nat) :
    ∀ (cs : List Str) (idx k : Nat) (r : Str), k < cs.length →
      oracle (idx + k) = Except.ok r →
      ∀ content ∈ perChunkFacts r,
        mkFact (content.take 200) topic ts ∈ (processChunks topic ts oracle total cs idx).1 := by
  intro cs
  induction cs with
  | nil => intro idx k r hk; simp at hk
  | cons c cs' ih =>
    intro idx k r hk ho content hc
    simp only [processChunks]
    cases k with
    | zero =>
      have ho0 : oracle idx = Except.ok r := by simpa using ho
      rw [ho0]
      exact List.mem_append_left _ (List.mem_map_of_mem _ hc)
    | succ k' =>
      have ho' : oracle ((idx + 1) + k') = Except.ok r := by
        rw [show (idx + 1) + k' = idx + (k' + 1) by omega]; exact ho
      have hrec := ih (idx + 1) k' r (by simpa using hk) ho' content hc
      split
      · exact hrec
      · exact List.mem_append_right _ hrec

/-! ### Helper lemmas about whitespace-only input -/

/-- Newline normalisation preserves an all-whitespace text. -/
theorem normNewlines_ws :
    ∀ t : Str, (∀ c ∈ t, isJsWs c = true) → ∀ c ∈ normNewlines t, isJsWs c = true := by
  intro t
  induction t using normNewlines.induct with
  | case1 => simp [normNewlines]
  | case2 rest ih =>
    intro h c hc
    simp only [normNewlines, List.mem_cons] at hc
    rcases hc with rfl | hc
    · simp [isJsWs]
    · exact ih (fun d hd => h d (by simp [hd])) c hc
  | case3 a rest hne ih =>
    intro h c hc
    have heq : normNewlines (a :: rest) = a :: normNewlines rest := by
      rw [normNewlines]
      exact hne
    rw [heq] at hc
    rcases List.mem_cons.mp hc with rfl | hc
    · exact h c (by simp)
    · exact ih (fun d hd => h d (by simp [hd])) c hc

/-- Every character of every piece produced by the splitter occurs in the
split string. -/
theorem splitChar_subset (sep : Char) :
    ∀ (l : Str) (p : Str), p ∈ splitChar sep l → ∀ c ∈ p, c ∈ l := by
  intro l
  induction l with
  | nil =>
    intro p hp c hc
    simp only [splitChar, List.mem_singleton] at hp
    subst hp
    simp at hc
  | cons a rest ih =>
    intro p hp c hc
    simp only [splitChar] at hp
    by_cases ha : a = sep
    · rw [if_pos ha] at hp
      rcases List.mem_cons.mp hp with rfl | h
      · simp at hc
      · exact List.mem_cons_of_mem _ (ih p h c hc)
    · rw [if_neg ha] at hp
      cases hsp : splitChar sep rest with
      | nil =>
        rw [hsp] at hp
        simp only [List.mem_singleton] at hp
        subst hp
        rcases List.mem_singleton.mp hc with rfl
        simp
      | cons p0 ps =>
        rw [hsp] at hp
        rcases List.mem_cons.mp hp with rfl | h
        · rcases List.mem_cons.mp hc with rfl | h2
          · simp
          · exact List.mem_cons_of_mem _ (ih p0 (by rw [hsp]; simp) c h2)
        · exact List.mem_cons_of_mem _ (ih p (by rw [hsp]; exact List.mem_cons_of_mem _ h) c hc)

/-- Trimming an all-whitespace string gives the empty string. -/
theorem jsTrim_ws (t : Str) (h : ∀ c ∈ t, isJsWs c = true) : jsTrim t = [] := by
  simp only [jsTrim]
  rw [List.dropWhile_eq_nil_iff.mpr h]
  simp

/-- An all-whitespace text yields no candidate sentences. -/
theorem sentencesOfText_ws (t : Str) (h : ∀ c ∈ t, isJsWs c = true) :
    sentencesOfText t = [] := by
  simp only [sentencesOfText]
  rw [List.flatten_eq_nil_iff]
  intro l hl
  rcases List.mem_map.mp hl with ⟨line, hline, rfl⟩
  have hws : ∀ c ∈ line, isJsWs c = true :=
    fun c hc => normNewlines_ws t h c (splitChar_subset '\n' (normNewlines t) line hline c hc)
  rw [jsTrim_ws line hws]
  simp

/-! ### Claim C1 -/

/-- C1 (counterexample): in the model path, a completion response that
repeats a line yields two facts with the same lowercased content — the
model path does not deduplicate, so the claimed invariant fails. -/
theorem c1_model_no_dedup_counterexample :
    ¬ ((parseTextToFactsModel "hi".data [] [] (fun _ => Except.ok "A\nA".data)).1.Pairwise
        (fun a b => lowerStr a.content ≠ lowerStr b.content)) := by
  decide

/-- C1 (amended): every fact returned by either extraction path has
non-empty content of at most 200 characters; the case-insensitive
deduplication holds only on the fallback path, where it is applied to the
untruncated sentence text — when no cleaned sentence exceeds 200
characters, the fallback facts have pairwise distinct lowercased
contents.  The model path does not deduplicate. -/
theorem parseTextToFacts_content_invariants (text topic ts : Str)
    (oracle : Nat → Except Unit Str) :
    (∀ f ∈ (parseTextToFactsModel text topic ts oracle).1,
        0 < f.content.length ∧ f.content.length ≤ 200) ∧
    (∀ f ∈ (fallbackParseTextToFacts text topic ts).1,
        0 < f.content.length ∧ f.content.length ≤ 200) ∧
    ((∀ s ∈ sentencesOfText text, (jsTrim s).length ≤ 200) →
      (fallbackParseTextToFacts text topic ts).1.Pairwise
        (fun a b => lowerStr a.content ≠ lowerStr b.content)) := by
  refine ⟨?_, ?_, ?_⟩
  · intro f hf
    simp only [parseTextToFactsModel] at hf
    split_ifs at hf with h
    · simp at hf
    · exact processChunks_bounds topic ts oracle _ _ 0 f hf
  · intro f hf
    exact factLoop_bounds topic ts (sentencesOfText text) [] [] (by simp) f hf
  · intro hlen
    exact factLoop_dedup topic ts (sentencesOfText text) [] [] hlen (by simp) (by simp)

/-- C1 (witness): the invariants at a concrete run of both paths. -/
theorem parseTextToFacts_content_invariants_witness :
    (∀ f ∈ (parseTextToFactsModel "a. b!".data [] [] (fun _ => Except.ok "C\nD".data)).1,
        0 < f.content.length ∧ f.content.length ≤ 200) ∧
    (∀ f ∈ (fallbackParseTextToFacts "a. b!".data [] []).1,
        0 < f.content.length ∧ f.content.length ≤ 200) ∧
    (fallbackParseTextToFacts "a. b!".data [] []).1.Pairwise
      (fun a b => lowerStr a.content ≠ lowerStr b.content) :=
  ⟨(parseTextToFacts_content_invariants "a. b!".data [] []
      (fun _ => Except.ok "C\nD".data)).1,
   (parseTextToFacts_content_invariants "a. b!".data [] []
      (fun _ => Except.ok "C\nD".data)).2.1,
   (parseTextToFacts_content_invariants "a. b!".data [] []
      (fun _ => Except.ok "C\nD".data)).2.2 (by decide)⟩

/-! ### Claim C3 -/

/-- C3 (counterexample): on whitespace-only input the fallback path still
emits progress events (the four-event single-chunk sequence), so "no
events in both modes" fails. -/
theorem fallback_empty_input_emits_events_counterexample :
    (fallbackParseTextToFacts " ".data "t".data []).2 ≠ [] := by
  decide

/-- C3 (amended): on empty or whitespace-only input both paths return the
empty fact list; the model path emits no events, while the fallback path
emits its usual parse-start, chunk-start, chunk-complete(0),
parse-complete(0) sequence. -/
theorem parseTextToFacts_empty_input (text topic ts : Str)
    (oracle : Nat → Except Unit Str) (hws : ∀ c ∈ text, isJsWs c = true) :
    parseTextToFactsModel text topic ts oracle = ([], []) ∧
    (fallbackParseTextToFacts text topic ts).1 = [] ∧
    (fallbackParseTextToFacts text topic ts).2 =
      [AIProgressEvent.parseStart topic 1,
       AIProgressEvent.parseChunkStart topic 1 1,
       AIProgressEvent.parseChunkComplete topic 1 1 0,
       AIProgressEvent.parseComplete topic 1 0] := by
  have ht : jsTrim text = [] := jsTrim_ws text hws
  have hsent : sentencesOfText text = [] := sentencesOfText_ws text hws
  have hfacts : factLoop topic ts (sentencesOfText text) [] [] = [] := by
    rw [hsent]
    simp [factLoop]
  refine ⟨?_, ?_, ?_⟩
  · simp [parseTextToFactsModel, ht]
  · exact hfacts
  · show ([AIProgressEvent.parseStart topic 1, AIProgressEvent.parseChunkStart topic 1 1,
        AIProgressEvent.parseChunkComplete topic 1 1
          (factLoop topic ts (sentencesOfText text) [] []).length,
        AIProgressEvent.parseComplete topic 1
          (factLoop topic ts (sentencesOfText text) [] []).length] = _)
    rw [hfacts]
    simp

/-- C3 (witness): the empty-input behaviour at a concrete whitespace
input. -/
theorem parseTextToFacts_empty_input_witness :
    parseTextToFactsModel " ".data "t".data [] (fun _ => Except.error ()) = ([], []) ∧
    (fallbackParseTextToFacts " ".data "t".data []).1 = [] ∧
    (fallbackParseTextToFacts " ".data "t".data []).2 =
      [AIProgressEvent.parseStart "t".data 1,
       AIProgressEvent.parseChunkStart "t".data 1 1,
       AIProgressEvent.parseChunkComplete "t".data 1 1 0,
       AIProgressEvent.parseComplete "t".data 1 0] :=
  parseTextToFacts_empty_input " ".data "t".data [] (fun _ => Except.error ()) (by decide)

/-! ### Claim C7 -/

/-- C7: in fallback mode the two-sentence science text yields exactly the
two sentence facts, delimiters retained, in order. -/
theorem fallback_two_sentence_scenario (ts : Str) :
    (fallbackParseTextToFacts "Water boils at 100C. Salt lowers freezing point!".data
        "science".data ts).1 =
      [mkFact "Water boils at 100C.".data "science".data ts,
       mkFact "Salt lowers freezing point!".data "science".data ts] := by
  have hs : sentencesOfText "Water boils at 100C. Salt lowers freezing point!".data =
      ["Water boils at 100C.".data, "Salt lowers freezing point!".data] := by decide
  show factLoop "science".data ts
      (sentencesOfText "Water boils at 100C. Salt lowers freezing point!".data) [] [] = _
  rw [hs, factLoop_clean "science".data ts
      ["Water boils at 100C.".data, "Salt lowers freezing point!".data] [] []
      (by decide) (by decide) (by decide) (by decide)]
  simp

/-! ### Claim C4 -/

/-- C4 (counterexample): when the single chunk's completion fails, no
chunk-complete event at all is emitted for it — the `continue` in the
source skips the emission, so the claimed `factsGenerated = 0` event never
appears. -/
theorem failed_chunk_no_complete_event_counterexample :
    AIProgressEvent.parseChunkComplete "t".data 1 1 0 ∉
      (parseTextToFactsModel "x".data "t".data [] (fun _ => Except.error ())).2 := by
  decide

/-- C4 (amended): in the model path a failed chunk completion is swallowed
— every chunk still gets its chunk-start event, the run still emits its
parse-complete event, and the facts of every successful chunk are
returned — but the failed chunk gets no chunk-complete event (with any
count): the emission is skipped, not emitted with zero. -/
theorem model_path_failed_chunk_swallowed (text topic ts : Str)
    (oracle : Nat → Except Unit Str) (hne : jsTrim text ≠ []) :
    (∀ i m, i < (chunksOf (jsTrim text)).length → oracle i = Except.error () →
      AIProgressEvent.parseChunkComplete topic (i + 1) (chunksOf (jsTrim text)).length m ∉
        (parseTextToFactsModel text topic ts oracle).2) ∧
    (∀ i, i < (chunksOf (jsTrim text)).length →
      AIProgressEvent.parseChunkStart topic (i + 1) (chunksOf (jsTrim text)).length ∈
        (parseTextToFactsModel text topic ts oracle).2) ∧
    AIProgressEvent.parseComplete topic (chunksOf (jsTrim text)).length
        (parseTextToFactsModel text topic ts oracle).1.length ∈
      (parseTextToFactsModel text topic ts oracle).2 ∧
    (∀ i r, i < (chunksOf (jsTrim text)).length → oracle i = Except.ok r →
      ∀ content ∈ perChunkFacts r,
        mkFact (content.take 200) topic ts ∈ (parseTextToFactsModel text topic ts oracle).1) := by
  have hlen : ¬ (jsTrim text).length = 0 := by simpa [List.length_eq_zero] using hne
  have hm : parseTextToFactsModel text topic ts oracle =
      ((processChunks topic ts oracle (chunksOf (jsTrim text)).length
          (chunksOf (jsTrim text)) 0).1,
        AIProgressEvent.parseStart topic (chunksOf (jsTrim text)).length ::
          (processChunks topic ts oracle (chunksOf (jsTrim text)).length
              (chunksOf (jsTrim text)) 0).2 ++
            [AIProgressEvent.parseComplete topic (chunksOf (jsTrim text)).length
              (processChunks topic ts oracle (chunksOf (jsTrim text)).length
                  (chunksOf (jsTrim text)) 0).1.length]) := by
    simp only [parseTextToFactsModel, if_neg hlen]
  rw [hm]
  refine ⟨?_, ?_, ?_, ?_⟩
  · intro i m hi herr hmem
    rcases List.mem_cons.mp hmem with h | h
    · simp at h
    rcases List.mem_append.mp h with h2 | h2
    · rcases processChunks_complete_mem topic ts oracle _ _ 0 _ _ _ _ h2 with
        ⟨k, -, -, -, hj, r, hr, -⟩
      have hk : k = i := by omega
      rw [hk, Nat.zero_add, herr] at hr
      simp at hr
    · have h3 := List.mem_singleton.mp h2
      simp at h3
  · intro i hi
    refine List.mem_cons_of_mem _ (List.mem_append_left _ ?_)
    simpa using processChunks_start_mem topic ts oracle _ _ 0 i hi
  · exact List.mem_cons_of_mem _ (List.mem_append_right _ (by simp))
  · intro i r hi hok content hc
    simpa using processChunks_ok_facts topic ts oracle _ _ 0 i r hi (by simpa using hok)
      content hc

/-! ### Claim C2 -/

/-- Every option kept by the item normalisation is a non-empty (trimmed)
string. -/
theorem itemOptions_nonempty (v : JVal) : ∀ o ∈ itemOptions v, o ≠ [] := by
  intro o ho
  unfold itemOptions at ho
  split at ho
  · rcases List.mem_filterMap.mp ho with ⟨a, _, hf⟩
    cases a with
    | str s =>
      dsimp only at hf
      by_cases hq : 0 < (jsTrim s).length
      · rw [if_pos hq] at hf
        obtain rfl := Option.some.inj hf
        exact List.length_pos.mp hq
      · rw [if_neg hq] at hf
        exact absurd hf (by simp)
    | null => simp at hf
    | bool b => simp at hf
    | num m e => simp at hf
    | arr es => simp at hf
    | obj ms => simp at hf
  · simp at ho

/-- With exactly four options, the clamped answer index lies in [0, 3]. -/
theorem itemAnswer_bounds (v : JVal) (h4 : (itemOptions v).length = 4) :
    0 ≤ itemAnswer v ∧ itemAnswer v ≤ 3 := by
  unfold itemAnswer
  rw [h4]
  omega

/-- Every question a repair candidate yields satisfies the quiz-question
shape invariant. -/
theorem candidateQuestions_valid (c : Str) (q : QuizQuestion) (hq : q ∈ candidateQuestions c) :
    0 < q.question.length ∧ q.options.length = 4 ∧ (∀ o ∈ q.options, o ≠ []) ∧
      0 ≤ q.correct_answer ∧ q.correct_answer ≤ 3 := by
  unfold candidateQuestions at hq
  split at hq
  · rcases List.mem_filter.mp hq with ⟨hmem, hpred⟩
    simp only [Bool.and_eq_true, decide_eq_true_eq] at hpred
    rcases List.mem_map.mp hmem with ⟨v, _, rfl⟩
    exact ⟨hpred.1, hpred.2, fun o ho => itemOptions_nonempty v o ho,
      (itemAnswer_bounds v hpred.2).1, (itemAnswer_bounds v hpred.2).2⟩
  · simp at hq

/-- Every question returned by the candidate loop comes from some
candidate. -/
theorem parseQuizBatchGo_mem (expected : Nat) :
    ∀ (cs : List Str) (q : QuizQuestion), q ∈ parseQuizBatchGo expected cs →
      ∃ c ∈ cs, q ∈ candidateQuestions c := by
  intro cs
  induction cs with
  | nil => intro q hq; simp [parseQuizBatchGo] at hq
  | cons c cs' ih =>
    intro q hq
    simp only [parseQuizBatchGo] at hq
    split_ifs at hq with h h2
    · rcases ih q hq with ⟨c2, hc2, hq2⟩
      exact ⟨c2, by simp [hc2], hq2⟩
    · exact ⟨c, by simp, List.mem_of_mem_take hq⟩
    · exact ⟨c, by simp, List.mem_of_mem_take hq⟩

/-- With a positive expected count the candidate loop returns at most
that many questions. -/
theorem parseQuizBatchGo_len (expected : Nat) (hpos : 0 < expected) :
    ∀ cs : List Str, (parseQuizBatchGo expected cs).length ≤ expected := by
  intro cs
  induction cs with
  | nil => simp [parseQuizBatchGo]
  | cons c cs' ih =>
    simp only [parseQuizBatchGo]
    split_ifs with h
    · exact ih
    · simp [List.length_take]

/-- When no candidate yields a valid item the candidate loop returns the
empty list. -/
theorem parseQuizBatchGo_empty (expected : Nat) :
    ∀ cs : List Str, (∀ c ∈ cs, candidateQuestions c = []) →
      parseQuizBatchGo expected cs = [] := by
  intro cs
  induction cs with
  | nil => intro _; simp [parseQuizBatchGo]
  | cons c cs' ih =>
    intro h
    simp only [parseQuizBatchGo]
    rw [if_pos (by simp [h c (by simp)])]
    exact ih (fun c2 hc2 => h c2 (by simp [hc2]))

/-- C2: `parseQuizBatch` is total (parse failures surface as the empty
list, never an exception), every returned question has a non-empty
question text, exactly four non-empty options, and a clamped integer
answer index in [0, 3]; at most the expected count is returned; and when
no repair candidate yields any valid item the result is empty. -/
theorem parseQuizBatch_sound (raw : Str) (n : Nat) (hn : 0 < n) :
    (∀ q ∈ parseQuizBatch raw n,
      0 < q.question.length ∧ q.options.length = 4 ∧ (∀ o ∈ q.options, o ≠ []) ∧
        0 ≤ q.correct_answer ∧ q.correct_answer ≤ 3) ∧
    (parseQuizBatch raw n).length ≤ n ∧
    ((∀ c ∈ quizCandidates raw, candidateQuestions c = []) → parseQuizBatch raw n = []) := by
  refine ⟨?_, parseQuizBatchGo_len n hn _, fun h => parseQuizBatchGo_empty n _ h⟩
  intro q hq
  rcases parseQuizBatchGo_mem n _ q hq with ⟨c, -, hqc⟩
  exact candidateQuestions_valid c q hqc

/-- C2 (witness): the invariants at a concrete well-formed response. -/
theorem parseQuizBatch_sound_witness :
    (∀ q ∈ parseQuizBatch "[\x7b\"question\": \"Q?\", \"options\": [\"a\", \"b\", \"c\", \"d\"], \"correct_answer\": 2\x7d]".data 1,
      0 < q.question.length ∧ q.options.length = 4 ∧ (∀ o ∈ q.options, o ≠ []) ∧
        0 ≤ q.correct_answer ∧ q.correct_answer ≤ 3) ∧
    (parseQuizBatch "[\x7b\"question\": \"Q?\", \"options\": [\"a\", \"b\", \"c\", \"d\"], \"correct_answer\": 2\x7d]".data 1).length ≤ 1 ∧
    ((∀ c ∈ quizCandidates "[\x7b\"question\": \"Q?\", \"options\": [\"a\", \"b\", \"c\", \"d\"], \"correct_answer\": 2\x7d]".data,
        candidateQuestions c = []) →
      parseQuizBatch "[\x7b\"question\": \"Q?\", \"options\": [\"a\", \"b\", \"c\", \"d\"], \"correct_answer\": 2\x7d]".data 1 = []) :=
  parseQuizBatch_sound
    "[\x7b\"question\": \"Q?\", \"options\": [\"a\", \"b\", \"c\", \"d\"], \"correct_answer\": 2\x7d]".data
    1 (by decide)

/-! ### Claim C5 -/

/-- C5 (counterexample): on the braced-object input the quiz-batch parser
does not yield the claimed repaired question — its span matcher only
looks for a `[..]` span, which here is the options array. -/
theorem quiz_object_repair_counterexample :
    parseQuizBatch "prefix \x7bquestion: 'Q?', options: ['a','b','c','d'], correct_answer: 2\x7d suffix".data 1 ≠
      [⟨"Q?".data, ["a".data, "b".data, "c".data, "d".data], 2⟩] := by
  decide

/-- C5 (amended): on that input `parseQuizBatch` returns the empty list:
the greedy `[..]` span is the options array, whose repaired form parses to
an array of plain strings containing no object-like item, so no candidate
yields a valid question. -/
theorem quiz_object_repair_amended :
    parseQuizBatch "prefix \x7bquestion: 'Q?', options: ['a','b','c','d'], correct_answer: 2\x7d suffix".data 1 = [] := by
  decide

/-! ### Claim C6 -/

/-- Modelled from the spec: the claim's baseline formula for non-empty
interaction lists, with the denominator written as `max (right+left) 1`
("floor 1") — to be compared with the source's `baselineAnalysis`. -/
def baselineClaimFormula (ints : List Interaction) : PreferenceAnalysis :=
  let rightSwipes := countDirection ints "right".data
  let leftSwipes := countDirection ints "left".data
  let share : Rat := (rightSwipes : Rat) / ((max (rightSwipes + leftSwipes) 1 : Nat) : Rat)
  ⟨if 3 / 5 < share then ["general".data] else [],
   if share < 2 / 5 then ["general".data] else [],
   [],
   [("general".data, toFixed2 ((share - 1 / 2) * 2))]⟩

/-- C6 (counterexample): with one right swipe, a completion failure makes
`analyzeUserPreference` return the all-empty analysis, which differs from
the baseline heuristic the claim promises (whose preferred topics are
then `["general"]`). -/
theorem preference_completion_failure_counterexample :
    analyzeUserPreference false [Interaction.mk "right".data] (Except.error ()) =
        PrefResult.analysis emptyAnalysis ∧
      emptyAnalysis ≠ baselineAnalysis [Interaction.mk "right".data] := by
  constructor
  · rfl
  · intro heq
    have hr : countDirection [Interaction.mk "right".data] "right".data = 1 := by decide
    have hl : countDirection [Interaction.mk "right".data] "left".data = 0 := by decide
    have h2 := congrArg PreferenceAnalysis.preferred_topics heq
    have hb : (baselineAnalysis [Interaction.mk "right".data]).preferred_topics =
        ["general".data] := by
      rw [baselineAnalysis]
      norm_num [hr, hl]
    rw [hb] at h2
    simp [emptyAnalysis] at h2

/-- C6 (amended): for non-empty interactions in model mode, a completion
failure returns the all-empty analysis (not the baseline); a response
with no parseable JSON object returns the baseline heuristic; and the
source baseline agrees with the claim's ratio formula.  The function is
total, so no error propagates. -/
theorem analyzeUserPreference_failure_paths (ints : List Interaction) (resp : Str)
    (hne : ints ≠ []) (hjson : (prefJson resp).isNone = true) :
    analyzeUserPreference false ints (Except.error ()) = PrefResult.analysis emptyAnalysis ∧
    analyzeUserPreference false ints (Except.ok resp) =
      PrefResult.analysis (baselineAnalysis ints) ∧
    baselineAnalysis ints = baselineClaimFormula ints := by
  have hempty : ints.isEmpty = false := by
    cases ints with
    | nil => exact absurd rfl hne
    | cons a l => rfl
  have hDen : (if countDirection ints "right".data + countDirection ints "left".data = 0 then 1
      else countDirection ints "right".data + countDirection ints "left".data) =
      max (countDirection ints "right".data + countDirection ints "left".data) 1 := by
    by_cases h0 : countDirection ints "right".data + countDirection ints "left".data = 0
    · rw [if_pos h0, h0]
      omega
    · rw [if_neg h0]
      omega
  refine ⟨?_, ?_, ?_⟩
  · simp [analyzeUserPreference, hempty]
  · simp [analyzeUserPreference, hempty, Option.isNone_iff_eq_none.mp hjson]
  · rw [baselineAnalysis, baselineClaimFormula, hempty]
    simp only [Bool.false_eq_true, if_false, hDen]

/-- C6 (witness): the amended behaviour at one right swipe and a
JSON-free response. -/
theorem analyzeUserPreference_failure_paths_witness :
    analyzeUserPreference false [Interaction.mk "right".data] (Except.error ()) =
        PrefResult.analysis emptyAnalysis ∧
    analyzeUserPreference false [Interaction.mk "right".data] (Except.ok "no json".data) =
      PrefResult.analysis (baselineAnalysis [Interaction.mk "right".data]) ∧
    baselineAnalysis [Interaction.mk "right".data] =
      baselineClaimFormula [Interaction.mk "right".data] :=
  analyzeUserPreference_failure_paths [Interaction.mk "right".data] "no json".data
    (by decide) (by decide)

/-! ### Claim C8 -/

/-- C8: from a fresh service state every completed `initialize()` reaches
exactly one of the two terminal states — Ready (handle held, fallback off)
or FallbackEnabled (no handle, fallback on) — with `initialized` set; in
particular a failed download (when preloading with a download-capable
handle) or a failed backend init still resolves to FallbackEnabled
instead of raising (the modelled call is total). -/
theorem initRun_terminal (env : ModelEnv) (s : AIState)
    (h1 : s.initialized = false) (h2 : s.initializing = false)
    (h3 : s.lm = false) (h4 : s.fallbackEnabled = false) :
    (initRun env s).1.initialized = true ∧
    ((initRun env s).1.lm = true ↔ (initRun env s).1.fallbackEnabled = false) ∧
    ((env.backend = true ∧
        ((env.preload = true ∧ env.hasDownload = true ∧ env.downloadOk = false) ∨
         (env.hasInit = true ∧ env.initOk = false))) →
      (initRun env s).1.fallbackEnabled = true ∧ (initRun env s).1.lm = false) := by
  rcases s with ⟨slm, sinit, sing, sfb⟩
  have e1 : sinit = false := h1
  have e2 : sing = false := h2
  have e3 : slm = false := h3
  have e4 : sfb = false := h4
  subst e1 e2 e3 e4
  rcases env with ⟨b, hd, hi, pl, dl, io⟩
  cases b <;> cases hd <;> cases hi <;> cases pl <;> cases dl <;> cases io <;> decide

/-- C8 (witness): a failed download on a fresh state resolves into
FallbackEnabled. -/
theorem initRun_terminal_witness :
    (initRun (ModelEnv.mk true true true true false true)
        (AIState.mk false false false false)).1.initialized = true ∧
    ((initRun (ModelEnv.mk true true true true false true)
        (AIState.mk false false false false)).1.lm = true ↔
      (initRun (ModelEnv.mk true true true true false true)
        (AIState.mk false false false false)).1.fallbackEnabled = false) ∧
    (((ModelEnv.mk true true true true false true).backend = true ∧
        (((ModelEnv.mk true true true true false true).preload = true ∧
          (ModelEnv.mk true true true true false true).hasDownload = true ∧
          (ModelEnv.mk true true true true false true).downloadOk = false) ∨
         ((ModelEnv.mk true true true true false true).hasInit = true ∧
          (ModelEnv.mk true true true true false true).initOk = false))) →
      (initRun (ModelEnv.mk true true true true false true)
          (AIState.mk false false false false)).1.fallbackEnabled = true ∧
        (initRun (ModelEnv.mk true true true true false true)
          (AIState.mk false false false false)).1.lm = false) :=
  initRun_terminal (ModelEnv.mk true true true true false true)
    (AIState.mk false false false false) rfl rfl rfl rfl

/-! ### Claim C10 -/

/-- C10: with no handle held, `destroy()` is the identity on the
lifecycle state — `initialized` and `fallbackEnabled` keep their values —
and a subsequent `initialize()` on a still-initialized state returns
immediately (unchanged state, no backend attempt). -/
theorem destroy_no_handle_frame (env : ModelEnv) (s : AIState) (h : s.lm = false) :
    destroyRun s = s ∧ (s.initialized = true → initRun env (destroyRun s) = (s, false)) := by
  have hd : destroyRun s = s := by simp [destroyRun, h]
  refine ⟨hd, fun hi => ?_⟩
  rw [hd]
  simp [initRun, hi]

/-- C10 (witness): after a fallback-mode initialization (initialized, no
handle, fallback on), destroy changes nothing and re-initialization
returns immediately. -/
theorem destroy_no_handle_frame_witness :
    destroyRun (AIState.mk false true false true) = AIState.mk false true false true ∧
    ((AIState.mk false true false true).initialized = true →
      initRun (ModelEnv.mk true true true true true true)
          (destroyRun (AIState.mk false true false true)) =
        (AIState.mk false true false true, false)) :=
  destroy_no_handle_frame (ModelEnv.mk true true true true true true)
    (AIState.mk false true false true) rfl

/-! ### Claim C9 -/

/-- The inductive invariant of the concurrent-initialization system: the
attempt counter is 1 exactly when an initialization has started (and 0
before); a finished caller implies the terminal flag; an attempting
caller implies an in-flight, not-yet-terminal initialization; and at most
one caller is attempting. -/
def InitInv (s : InitSys) : Prop :=
  s.attempts = (if s.initialized = true ∨ s.initializing = true then 1 else 0) ∧
  (∀ i : Nat, s.pcs[i]? = some CallerPC.done → s.initialized = true) ∧
  (∀ i : Nat, s.pcs[i]? = some CallerPC.attempting →
    s.initializing = true ∧ s.initialized = false) ∧
  (∀ i j : Nat, s.pcs[i]? = some CallerPC.attempting →
    s.pcs[j]? = some CallerPC.attempting → i = j)

/-- The invariant holds initially. -/
theorem initInv_initial (n : Nat) : InitInv (initSys n) := by
  refine ⟨by simp [initSys], ?_, ?_, ?_⟩
  · intro i h
    simp [initSys, List.getElem?_replicate] at h
  · intro i h
    simp [initSys, List.getElem?_replicate] at h
  · intro i j hi hj
    simp [initSys, List.getElem?_replicate] at hi

/-- The invariant is preserved by every step. -/
theorem initInv_step {s s' : InitSys} (hinv : InitInv s) (hstep : InitStep s s') :
    InitInv s' := by
  obtain ⟨hA, hD, hT, hU⟩ := hinv
  cases hstep with
  | returnNow i hpc hinit =>
    refine ⟨hA, fun j hj => hinit, ?_, ?_⟩
    · intro j hj
      rw [List.getElem?_set] at hj
      split at hj
      · split at hj <;> simp at hj
      · exact hT j hj
    · intro j k hj hk
      rw [List.getElem?_set] at hj
      split at hj
      · split at hj <;> simp at hj
      · rw [List.getElem?_set] at hk
        split at hk
        · split at hk <;> simp at hk
        · exact hU j k hj hk
  | beginWait i hpc h1 h2 =>
    refine ⟨hA, ?_, ?_, ?_⟩
    · intro j hj
      rw [List.getElem?_set] at hj
      split at hj
      · split at hj <;> simp at hj
      · exact hD j hj
    · intro j hj
      rw [List.getElem?_set] at hj
      split at hj
      · split at hj <;> simp at hj
      · exact hT j hj
    · intro j k hj hk
      rw [List.getElem?_set] at hj
      split at hj
      · split at hj <;> simp at hj
      · rw [List.getElem?_set] at hk
        split at hk
        · split at hk <;> simp at hk
        · exact hU j k hj hk
  | beginAttempt i hpc h1 h2 =>
    refine ⟨?_, ?_, ?_, ?_⟩
    · rw [h1, h2] at hA
      simp only [h1] at *
      simp at hA
      simp [hA]
    · intro j hj
      rw [List.getElem?_set] at hj
      split at hj
      · split at hj <;> simp at hj
      · exact hD j hj
    · intro j hj
      rw [List.getElem?_set] at hj
      split at hj
      · exact ⟨rfl, h1⟩
      · exact absurd (hT j hj).1 (by simp [h2])
    · intro j k hj hk
      rw [List.getElem?_set] at hj
      rw [List.getElem?_set] at hk
      split at hj
      · rename_i hij
        split at hk
        · rename_i hik
          omega
        · exact absurd (hT k hk).1 (by simp [h2])
      · exact absurd (hT j hj).1 (by simp [h2])
  | observeDone i hpc hinit =>
    refine ⟨hA, fun j hj => hinit, ?_, ?_⟩
    · intro j hj
      rw [List.getElem?_set] at hj
      split at hj
      · split at hj <;> simp at hj
      · exact hT j hj
    · intro j k hj hk
      rw [List.getElem?_set] at hj
      split at hj
      · split at hj <;> simp at hj
      · rw [List.getElem?_set] at hk
        split at hk
        · split at hk <;> simp at hk
        · exact hU j k hj hk
  | finishAttempt i hpc =>
    have hflight := hT i hpc
    refine ⟨?_, fun j hj => rfl, ?_, ?_⟩
    · rw [hA]
      simp [hflight.1]
    · intro j hj
      rw [List.getElem?_set] at hj
      split at hj
      · split at hj <;> simp at hj
      · rename_i hij
        exact absurd (hU j i hj hpc) (fun he => hij he.symm)
    · intro j k hj hk
      rw [List.getElem?_set] at hj
      split at hj
      · split at hj <;> simp at hj
      · rename_i hij
        exact absurd (hU j i hj hpc) (fun he => hij he.symm)

/-- C9: in every system state reachable from `n` concurrent fresh callers
of `initialize()`, at most one underlying backend attempt has been
started, and any caller that has completed its call observes the terminal
initialized state — at which point exactly one attempt was performed. -/
theorem initialize_coalesces (n : Nat) (s : InitSys) (h : InitReachable n s) :
    s.attempts ≤ 1 ∧
    ∀ i : Nat, s.pcs[i]? = some CallerPC.done →
      s.initialized = true ∧ s.attempts = 1 := by
  have hinv : InitInv s := by
    induction h with
    | refl => exact initInv_initial n
    | tail hsteps hstep ih => exact initInv_step ih hstep
  obtain ⟨hA, hD, -, -⟩ := hinv
  constructor
  · rw [hA]
    split <;> omega
  · intro i hi
    have hinit := hD i hi
    refine ⟨hinit, ?_⟩
    rw [hA]
    simp [hinit]

/-- C9 (witness): the guarantee evaluated after one caller runs to
completion (one begin-attempt step, one finish step). -/
theorem initialize_coalesces_witness :
    (InitSys.mk [CallerPC.done] true false 1).attempts ≤ 1 ∧
    ∀ i : Nat, (InitSys.mk [CallerPC.done] true false 1).pcs[i]? = some CallerPC.done →
      (InitSys.mk [CallerPC.done] true false 1).initialized = true ∧
      (InitSys.mk [CallerPC.done] true false 1).attempts = 1 :=
  initialize_coalesces 1 (InitSys.mk [CallerPC.done] true false 1)
    (Relation.ReflTransGen.tail
      (Relation.ReflTransGen.single
        (InitStep.beginAttempt (initSys 1) 0 rfl rfl rfl))
      (InitStep.finishAttempt _ 0 rfl))

/-- C4 (witness): the amended behaviour at a concrete single-chunk run
with a successful completion. -/
theorem model_path_failed_chunk_swallowed_witness :
    (∀ i m, i < (chunksOf (jsTrim "x".data)).length →
      (fun _ => Except.ok "F".data : Nat → Except Unit Str) i = Except.error () →
      AIProgressEvent.parseChunkComplete "t".data (i + 1) (chunksOf (jsTrim "x".data)).length m ∉
        (parseTextToFactsModel "x".data "t".data [] (fun _ => Except.ok "F".data)).2) ∧
    (∀ i, i < (chunksOf (jsTrim "x".data)).length →
      AIProgressEvent.parseChunkStart "t".data (i + 1) (chunksOf (jsTrim "x".data)).length ∈
        (parseTextToFactsModel "x".data "t".data [] (fun _ => Except.ok "F".data)).2) ∧
    AIProgressEvent.parseComplete "t".data (chunksOf (jsTrim "x".data)).length
        (parseTextToFactsModel "x".data "t".data [] (fun _ => Except.ok "F".data)).1.length ∈
      (parseTextToFactsModel "x".data "t".data [] (fun _ => Except.ok "F".data)).2 ∧
    (∀ i r, i < (chunksOf (jsTrim "x".data)).length →
      (fun _ => Except.ok "F".data : Nat → Except Unit Str) i = Except.ok r →
      ∀ content ∈ perChunkFacts r,
        mkFact (content.take 200) "t".data [] ∈
          (parseTextToFactsModel "x".data "t".data [] (fun _ => Except.ok "F".data)).1) :=
  model_path_failed_chunk_swallowed "x".data "t".data [] (fun _ => Except.ok "F".data)
    (by decide)

end AIService
